import Mathlib

/-!
Verification development for pybootd's `util.py` interface-resolution code.

The Python source is shallowly embedded below:
* `inet_aton` models the C library routine `inet_aton` that Python's
  `socket.inet_aton` wraps on this platform (classic BSD/glibc
  "numbers-and-dots" parser: up to four parts separated by dots, each part
  decimal, octal with a leading `0`, or hexadecimal with a leading `0x`;
  intermediate parts limited to 8 bits, the last part to the remaining
  bits; a trailing whitespace character stops parsing successfully).
* `iptoint` / `inttoip` model `util.iptoint` / `util.inttoip`.
* `_netifaces_get_iface_config`, `_iproute_get_iface_config` and
  `get_iface_config` model the three resolution functions; effectful
  boundaries (the `netifaces` tables, the captured output of
  `ip address show`) are passed in as explicit values.
Python exceptions are modelled with `Except PyErr`.
-/

namespace Pybootd

/-- Python exceptions the embedded code can raise. -/
inductive PyErr where
  | oserror
  | valueError
  | indexError
  | structError
  deriving DecidableEq, Repr

/-- Decimal digit test, as C `isdigit` on ASCII. -/
def isDec (c : Char) : Bool := '0' ≤ c && c ≤ '9'

/-- Octal digit test. -/
def isOct (c : Char) : Bool := '0' ≤ c && c ≤ '7'

/-- Hexadecimal digit test, as C `isxdigit` on ASCII. -/
def isHexDig (c : Char) : Bool := isDec c || ('a' ≤ c && c ≤ 'f') || ('A' ≤ c && c ≤ 'F')

/-- Value of a hexadecimal digit. -/
def hexVal (c : Char) : Nat :=
  if isDec c then c.toNat - 48 else if 'a' ≤ c && c ≤ 'f' then c.toNat - 87 else c.toNat - 55

/-- Consume a maximal run of decimal digits, accumulating their value. -/
def takeDec : Nat → List Char → Nat × List Char
  | acc, [] => (acc, [])
  | acc, c :: cs => if isDec c then takeDec (acc * 10 + (c.toNat - 48)) cs else (acc, c :: cs)

/-- Consume a maximal run of octal digits, accumulating their value. -/
def takeOct : Nat → List Char → Nat × List Char
  | acc, [] => (acc, [])
  | acc, c :: cs => if isOct c then takeOct (acc * 8 + (c.toNat - 48)) cs else (acc, c :: cs)

/-- Consume a maximal run of hexadecimal digits, accumulating their value. -/
def takeHex : Nat → List Char → Nat × List Char
  | acc, [] => (acc, [])
  | acc, c :: cs => if isHexDig c then takeHex (acc * 16 + hexVal c) cs else (acc, c :: cs)

/-- The `> 0xffffffff` overflow rejection performed by `inet_aton` on each
parsed part. -/
def capNum (p : Nat × List Char) : Option (Nat × List Char) :=
  if p.1 ≤ 4294967295 then some p else none

/-- One part of a numbers-and-dots address, as parsed by `strtoul` with base 0
called on a string whose first character is a digit, followed by the overflow
rejection.  Returns the value and the unconsumed characters. -/
def parseNum : List Char → Option (Nat × List Char)
  | [] => none
  | c :: rest =>
    if c = '0' then
      match rest with
      | [] => some (0, [])
      | c2 :: rest2 =>
        if c2 = 'x' || c2 = 'X' then
          match rest2 with
          | [] => some (0, rest)
          | c3 :: _ =>
            if isHexDig c3 then capNum (takeHex 0 rest2)
            else some (0, rest)
        else capNum (takeOct 0 rest)
    else if isDec c then capNum (takeDec (c.toNat - 48) rest)
    else none

/-- C `isascii && isspace` test applied by `inet_aton` to the first character
after the parsed address, when any. -/
def isCSpace (c : Char) : Bool :=
  c = ' ' || c = '\t' || c = '\n' || c = '\x0b' || c = '\x0c' || c = '\r'

/-- Trailing-character acceptance of `inet_aton`: end of string, or a
whitespace character (everything after it is ignored). -/
def trailOk : List Char → Bool
  | [] => true
  | c :: _ => c.toNat < 128 && isCSpace c

/-- Final assembly of `inet_aton`: combine the dotted parts with the last
value, enforcing the per-shape bounds (`a.b.c.d` 8.8.8.8 bits, `a.b.c`
8.8.16 bits, `a.b` 8.24 bits, `a` 32 bits). -/
def atonCombine (parts : List Nat) (val : Nat) : Option Nat :=
  match parts with
  | [] => some val
  | [a] => if val ≤ 16777215 then some ((a <<< 24) ||| val) else none
  | [a, b] => if val ≤ 65535 then some ((a <<< 24) ||| (b <<< 16) ||| val) else none
  | [a, b, c] => if val ≤ 255 then some ((a <<< 24) ||| (b <<< 16) ||| (c <<< 8) ||| val) else none
  | _ => none

/-- Main loop of `inet_aton`: parse a part; on a dot, store it (at most three
stored parts, each at most 255) and continue; otherwise check trailing
characters and assemble.  At most four iterations ever happen, so fuel 4 is
exact. -/
def atonLoop : Nat → List Nat → List Char → Option Nat
  | 0, _, _ => none
  | fuel + 1, parts, cs =>
    match parseNum cs with
    | none => none
    | some (val, rest) =>
      match rest with
      | '.' :: rest2 =>
        if parts.length > 2 || val > 255 then none
        else atonLoop fuel (parts ++ [val]) rest2
      | _ => if trailOk rest then atonCombine parts val else none

/-- Model of the C library `inet_aton` (numbers-and-dots notation), which
`socket.inet_aton` wraps; returns the 32-bit address as a `Nat`, `none` on
rejection. -/
def inet_aton (s : String) : Option Nat := atonLoop 4 [] s.data

/-- `util.iptoint`: `struct.unpack` of `socket.inet_aton`; a rejected string
raises `OSError` (`socket.error`). -/
def iptoint (s : String) : Except PyErr Nat :=
  match inet_aton s with
  | some v => Except.ok v
  | none => Except.error PyErr.oserror

/-- Decimal rendering of a natural number, as Python renders integers. -/
def reprDigits (n : Nat) : List Char := (Nat.repr n).data

/-- A dotted quad of four decimal numbers, highest byte first. -/
def mkQuad (a b c d : Nat) : String :=
  ⟨reprDigits a ++ '.' :: reprDigits b ++ '.' :: reprDigits c ++ '.' :: reprDigits d⟩

/-- Dotted-quad rendering of a 32-bit value, as `socket.inet_ntoa` renders the
four bytes of `struct.pack` in network order. -/
def ipRender (v : Nat) : String :=
  mkQuad ((v >>> 24) % 256) ((v >>> 16) % 256) ((v >>> 8) % 256) (v % 256)

/-- `util.inttoip`: `struct.pack` raises `struct.error` unless the value fits
in 32 bits; otherwise `inet_ntoa` renders the dotted quad. -/
def inttoip (v : Nat) : Except PyErr String :=
  if v < 4294967296 then Except.ok (ipRender v) else Except.error PyErr.structError

/-- Python whitespace (ASCII), as used by `str.strip` and `str.split`. -/
def isPySpace (c : Char) : Bool :=
  c = ' ' || c = '\t' || c = '\n' || c = '\x0b' || c = '\x0c' || c = '\r'

/-- Python `str.strip()` on the character list. -/
def pyStrip (l : List Char) : List Char :=
  ((l.dropWhile isPySpace).reverse.dropWhile isPySpace).reverse

/-- Worker for `pySplit`: split on whitespace runs, dropping empty pieces. -/
def splitWsAux : List Char → List Char → List (List Char)
  | cur, [] => if cur.isEmpty then [] else [cur]
  | cur, c :: cs =>
    if isPySpace c then
      if cur.isEmpty then splitWsAux [] cs else cur :: splitWsAux [] cs
    else splitWsAux (cur ++ [c]) cs

/-- Python `str.split()` with no argument: split on whitespace runs. -/
def pySplit (s : String) : List String := (splitWsAux [] s.data).map fun l => ⟨l⟩

/-- Python `str.endswith(c)` for a single character: test on the last character. -/
def lastIs (c : Char) (s : String) : Bool :=
  match s.data.getLast? with
  | some d => d = c
  | none => false

/-- Python `s[:-1]`: drop the last character (empty result on short strings). -/
def pyInit (s : String) : String := ⟨s.data.dropLast⟩

/-- Split at the first `'/'`, as `str.split('/', 1)`; `none` when there is no
slash (so that tuple unpacking of the one-element list raises `ValueError`). -/
def splitSlashOnce : List Char → Option (List Char × List Char)
  | [] => none
  | c :: cs =>
    if c = '/' then some ([], cs)
    else
      match splitSlashOnce cs with
      | some (a, b) => some (c :: a, b)
      | none => none

/-- String form of `splitSlashOnce`, modelling `items[1].split('/', 1)`
followed by unpacking into exactly two names. -/
def pySplitSlash (s : String) : Option (String × String) :=
  (splitSlashOnce s.data).map fun p => (⟨p.1⟩, ⟨p.2⟩)

/-- Digits possibly separated by single underscores, as accepted inside
Python `int()` literals; the whole list must be consumed. -/
def parseUD : Nat → List Char → Option Nat
  | acc, [] => some acc
  | acc, '_' :: rest =>
    match rest with
    | [] => none
    | c :: cs => if isDec c then parseUD (acc * 10 + (c.toNat - 48)) cs else none
  | acc, c :: cs => if isDec c then parseUD (acc * 10 + (c.toNat - 48)) cs else none

/-- A nonempty underscore-grouped digit string. -/
def parseDigitsU : List Char → Option Nat
  | [] => none
  | c :: cs => if isDec c then parseUD (c.toNat - 48) cs else none

/-- Python `int(s)` for base 10: optional surrounding whitespace, optional
sign, decimal digits with single underscores between them. -/
def pyParseInt (s : String) : Option Int :=
  match pyStrip s.data with
  | '+' :: rest => (parseDigitsU rest).map fun n => (n : Int)
  | '-' :: rest => (parseDigitsU rest).map fun n => -(n : Int)
  | l => (parseDigitsU l).map fun n => (n : Int)

/-- Drop the trailing newlines of the captured output, as `rstrip("\n")`. -/
def rstripNewlines (l : List Char) : List Char :=
  (l.reverse.dropWhile fun c => c = '\n').reverse

/-- Split on every newline, keeping empty pieces, as `split('\n')`. -/
def splitNl : List Char → List (List Char)
  | [] => [[]]
  | c :: cs =>
    if c = '\n' then [] :: splitNl cs
    else
      match splitNl cs with
      | h :: t => (c :: h) :: t
      | [] => [[c]]

/-- The line sequence the textual enumerator iterates over:
`(line.strip() for line in output.rstrip("\n").split('\n'))`. -/
def splitLines (out : String) : List String :=
  (splitNl (rstripNewlines out.data)).map fun l => ⟨pyStrip l⟩

/-- The mask built by the textual enumerator from a prefix length:
`((1 << masklen) - 1) << (32 - masklen)`. -/
def prefixMask (p : Nat) : Nat := ((1 <<< p) - 1) <<< (32 - p)

/-- The result dictionary of a successful resolution.  `ifname` is the
"current interface" of the textual parser, which is still `None` when no
interface header line has been seen. -/
structure IfaceConfig where
  ifname : Option String
  server : String
  net : String
  mask : String
  deriving DecidableEq, Repr

/-- One entry of `netifaces.ifaddresses(iface)[netifaces.AF_INET]`: a
dictionary whose `'addr'` and `'netmask'` keys may each be absent. -/
structure InetInfo where
  addr : Option String
  netmask : Option String
  deriving DecidableEq, Repr

/-- One interface as seen through `netifaces`: its name and, when the
`AF_INET` key is present, its list of IPv4 entries. -/
structure NetIface where
  name : String
  inet : Option (List InetInfo)
  deriving DecidableEq, Repr

/-- Inner loop of `_netifaces_get_iface_config` over the `AF_INET` entries of
one interface. -/
def netifacesInner (pool : Nat) (name : String) : List InetInfo → Except PyErr (Option IfaceConfig)
  | [] => Except.ok none
  | e :: rest =>
    match e.addr, e.netmask with
    | some addr_s, some netmask_s =>
      match iptoint addr_s with
      | Except.error err => Except.error err
      | Except.ok addr =>
        match iptoint netmask_s with
        | Except.error err => Except.error err
        | Except.ok mask =>
          if (addr &&& mask) ^^^ (pool &&& mask) = 0 then do
            let s ← inttoip addr
            let n ← inttoip (addr &&& mask)
            let m ← inttoip mask
            pure (some ⟨some name, s, n, m⟩)
          else netifacesInner pool name rest
    | _, _ => netifacesInner pool name rest

/-- Outer loop of `_netifaces_get_iface_config` over the interfaces;
interfaces without an `AF_INET` key are skipped. -/
def netifacesOuter (pool : Nat) : List NetIface → Except PyErr (Option IfaceConfig)
  | [] => Except.ok none
  | i :: rest =>
    match i.inet with
    | none => netifacesOuter pool rest
    | some entries =>
      match netifacesInner pool i.name entries with
      | Except.ok none => netifacesOuter pool rest
      | r => r

/-- `util._netifaces_get_iface_config`, over an explicit `netifaces` table. -/
def _netifaces_get_iface_config (env : List NetIface) (address : String) :
    Except PyErr (Option IfaceConfig) :=
  match iptoint address with
  | Except.error err => Except.error err
  | Except.ok pool => netifacesOuter pool env

/-- Line loop of `util._iproute_get_iface_config`, threading the current
interface name. -/
def iprouteLoop (pool : Nat) : Option String → List String → Except PyErr (Option IfaceConfig)
  | _, [] => Except.ok none
  | iface, l :: rest =>
    match pySplit l with
    | [] => iprouteLoop pool iface rest
    | first :: others =>
      if lastIs ':' first then
        match others with
        | [] => Except.error PyErr.indexError
        | second :: _ => iprouteLoop pool (some (pyInit second)) rest
      else if first = "inet" then
        match others with
        | [] => Except.error PyErr.indexError
        | second :: _ =>
          match pySplitSlash second with
          | none => Except.error PyErr.valueError
          | some (saddr, smasklen) =>
            match iptoint saddr with
            | Except.error err => Except.error err
            | Except.ok addr =>
              match pyParseInt smasklen with
              | none => Except.error PyErr.valueError
              | some mlen =>
                if mlen < 0 then Except.error PyErr.valueError
                else if 32 < mlen then Except.error PyErr.valueError
                else if (addr &&& prefixMask mlen.toNat) ^^^ (pool &&& prefixMask mlen.toNat) = 0
                then do
                  let s ← inttoip addr
                  let n ← inttoip (addr &&& prefixMask mlen.toNat)
                  let m ← inttoip (prefixMask mlen.toNat)
                  pure (some ⟨iface, s, n, m⟩)
                else iprouteLoop pool iface rest
      else iprouteLoop pool iface rest

/-- `util._iproute_get_iface_config`, over the captured standard output of
`ip address show`. -/
def _iproute_get_iface_config (out : String) (address : String) :
    Except PyErr (Option IfaceConfig) :=
  match iptoint address with
  | Except.error err => Except.error err
  | Except.ok pool => iprouteLoop pool none (splitLines out)

/-- `util.get_iface_config`, generic in the two strategies it dispatches to:
a falsy address short-circuits to `None`, otherwise exactly one strategy is
chosen by the availability of `netifaces`. -/
def resolveWith (structured textual : String → Except PyErr (Option IfaceConfig))
    (netifacesAvail : Bool) (address : Option String) : Except PyErr (Option IfaceConfig) :=
  match address with
  | none => Except.ok none
  | some a =>
    if a = "" then Except.ok none
    else if netifacesAvail then structured a
    else textual a

/-- `util.get_iface_config` with its effectful boundaries made explicit. -/
def get_iface_config (netifacesAvail : Bool) (env : List NetIface) (cmdOut : String)
    (address : Option String) : Except PyErr (Option IfaceConfig) :=
  resolveWith (_netifaces_get_iface_config env) (_iproute_get_iface_config cmdOut)
    netifacesAvail address

/-- Shadow of the textual line loop that only tracks the "current interface"
state: `some iface` when processing all the given lines neither returns a
result nor raises, `none` otherwise. -/
def iprouteScan (pool : Nat) : Option String → List String → Option (Option String)
  | iface, [] => some iface
  | iface, l :: rest =>
    match pySplit l with
    | [] => iprouteScan pool iface rest
    | first :: others =>
      if lastIs ':' first then
        match others with
        | [] => none
        | second :: _ => iprouteScan pool (some (pyInit second)) rest
      else if first = "inet" then
        match others with
        | [] => none
        | second :: _ =>
          match pySplitSlash second with
          | none => none
          | some (saddr, smasklen) =>
            match iptoint saddr with
            | Except.error _ => none
            | Except.ok addr =>
              match pyParseInt smasklen with
              | none => none
              | some mlen =>
                if mlen < 0 then none
                else if 32 < mlen then none
                else if (addr &&& prefixMask mlen.toNat) ^^^ (pool &&& prefixMask mlen.toNat) = 0
                then none
                else iprouteScan pool iface rest
      else iprouteScan pool iface rest

/-- The error the `inet` branch of the textual parser raises on its second
token, when any: no slash, an unparsable address, an unparsable or
out-of-range prefix length. -/
def inetTokenError (tok : String) : Option PyErr :=
  match pySplitSlash tok with
  | none => some PyErr.valueError
  | some (saddr, smasklen) =>
    match iptoint saddr with
    | Except.error err => some err
    | Except.ok _ =>
      match pyParseInt smasklen with
      | none => some PyErr.valueError
      | some mlen =>
        if mlen < 0 then some PyErr.valueError
        else if 32 < mlen then some PyErr.valueError
        else none

/-! Parsing the canonical decimal rendering back. -/

/-- Value of a decimal digit list. -/
def digitsVal (l : List Char) : Nat := l.foldl (fun a c => a * 10 + (c.toNat - 48)) 0

/-- Well-formedness of Python's decimal rendering of one octet: nonempty, all
decimal digits, evaluating back to the number, no leading zero unless zero. -/
def reprOctetOk (n : Nat) : Bool :=
  decide (reprDigits n ≠ []) && (reprDigits n).all isDec && (digitsVal (reprDigits n) == n) &&
    ((n == 0) || !((reprDigits n).head? == some '0'))

/-! Reference (spec-side) description of the structured enumerator, used to
state the refinement claim C1. -/

/-- Reference definition following the spec's words: flatten the environment
into (interface name, address, netmask) candidate entries, skipping entries in
which either field is missing and interfaces with no IPv4 configuration. -/
def candidateEntries (env : List NetIface) : List (String × String × String) :=
  env.flatMap fun i =>
    match i.inet with
    | none => []
    | some es =>
      es.filterMap fun e =>
        match e.addr, e.netmask with
        | some a, some m => some (i.name, a, m)
        | _, _ => none

/-- Reference test following the spec's words: convert the candidate's address
and mask to integer form; on masked equality with the target build the
interface record from the interface name, address, computed network and mask. -/
def candMatch (pool : Nat) (c : String × String × String) : Option IfaceConfig :=
  match inet_aton c.2.1, inet_aton c.2.2 with
  | some addr, some mask =>
    if addr &&& mask = pool &&& mask then
      some ⟨some c.1, ipRender addr, ipRender (addr &&& mask), ipRender mask⟩
    else none
  | _, _ => none

/-- Reference resolution following the spec's words: the record built from the
first candidate entry, in enumeration order, whose masked address equals the
masked target. -/
def specResolve (pool : Nat) (env : List NetIface) : Option IfaceConfig :=
  (candidateEntries env).findSome? (candMatch pool)

/-! Arithmetic facts about the codec. -/

/-- Bitwise or of a shifted value with a small value is addition. -/
theorem shiftLeft_lor_eq_add (a : Nat) {k b : Nat} (hb : b < 2 ^ k) :
    (a <<< k) ||| b = a <<< k + b := by
  apply Nat.eq_of_testBit_eq
  intro j
  have h1 : a <<< k + b = 2 ^ k * a + b := by rw [Nat.shiftLeft_eq]; ring
  rw [h1, Nat.testBit_mul_pow_two_add a hb j, Nat.testBit_lor, Nat.testBit_shiftLeft]
  by_cases hj : j < k
  · simp [hj, Nat.not_le.mpr hj]
  · have hbj : Nat.testBit b j = false :=
      Nat.testBit_lt_two_pow (lt_of_lt_of_le hb (Nat.pow_le_pow_right (by omega) (by omega)))
    simp [hj, hbj, Nat.not_lt.mp hj]

/-- Bound transport for shifted summands. -/
theorem shl_lt_of_le {b : Nat} (hb : b ≤ 255) (k m : Nat) (hkm : 256 * 2 ^ k ≤ 2 ^ m) :
    b <<< k < 2 ^ m := by
  rw [Nat.shiftLeft_eq]
  calc b * 2 ^ k < 256 * 2 ^ k := by
        exact (Nat.mul_lt_mul_right (Nat.two_pow_pos k)).mpr (by omega)
    _ ≤ 2 ^ m := hkm

/-- The two-part assembly of `atonCombine`, additively. -/
theorem duo_or (a b : Nat) (hb : b ≤ 16777215) :
    (a <<< 24) ||| b = a * 16777216 + b := by
  rw [shiftLeft_lor_eq_add a (by omega : b < 2 ^ 24), Nat.shiftLeft_eq]

/-- The three-part assembly of `atonCombine`, additively. -/
theorem tri_or (a b c : Nat) (hb : b ≤ 255) (hc : c ≤ 65535) :
    (a <<< 24) ||| (b <<< 16) ||| c = (a * 256 + b) * 65536 + c := by
  have h1 : (a <<< 24) ||| (b <<< 16) = (a * 256 + b) <<< 16 := by
    rw [shiftLeft_lor_eq_add a (shl_lt_of_le hb 16 24 (by norm_num))]
    rw [Nat.shiftLeft_eq, Nat.shiftLeft_eq, Nat.shiftLeft_eq]
    ring
  rw [h1, shiftLeft_lor_eq_add _ (by omega : c < 2 ^ 16), Nat.shiftLeft_eq]

/-- The four-part assembly of `atonCombine`, additively. -/
theorem quad_or (a b c d : Nat) (hb : b ≤ 255) (hc : c ≤ 255) (hd : d ≤ 255) :
    (a <<< 24) ||| (b <<< 16) ||| (c <<< 8) ||| d = ((a * 256 + b) * 256 + c) * 256 + d := by
  have h2 : (a <<< 24) ||| (b <<< 16) = (a * 256 + b) <<< 16 := by
    rw [shiftLeft_lor_eq_add a (shl_lt_of_le hb 16 24 (by norm_num))]
    rw [Nat.shiftLeft_eq, Nat.shiftLeft_eq, Nat.shiftLeft_eq]
    ring
  have h1 : (a <<< 24) ||| (b <<< 16) ||| (c <<< 8) = ((a * 256 + b) * 256 + c) <<< 8 := by
    rw [h2, shiftLeft_lor_eq_add _ (shl_lt_of_le hc 8 16 (by norm_num))]
    rw [Nat.shiftLeft_eq, Nat.shiftLeft_eq, Nat.shiftLeft_eq]
    ring
  rw [h1, shiftLeft_lor_eq_add _ (by omega : d < 2 ^ 8), Nat.shiftLeft_eq]

/-- The overflow cap only lets bounded values through. -/
theorem capNum_le {p : Nat × List Char} {v : Nat} {r : List Char}
    (h : capNum p = some (v, r)) : v ≤ 4294967295 := by
  unfold capNum at h
  split at h
  · cases h
    assumption
  · cases h

/-- Every value produced by `parseNum` respects the 32-bit overflow check. -/
theorem parseNum_le {cs : List Char} {v : Nat} {r : List Char}
    (h : parseNum cs = some (v, r)) : v ≤ 4294967295 := by
  unfold parseNum at h
  split at h
  · exact absurd h (by simp)
  · split at h
    · split at h
      · cases h
        omega
      · split at h
        · split at h
          · cases h
            omega
          · split at h
            · exact capNum_le h
            · cases h
              omega
        · exact capNum_le h
    · split at h
      · exact capNum_le h
      · exact absurd h (by simp)

/-- Every value assembled by `atonCombine` from bounded parts fits in 32 bits. -/
theorem atonCombine_lt {parts : List Nat} {val r : Nat} (hp : ∀ p ∈ parts, p ≤ 255)
    (hval : val ≤ 4294967295) (h : atonCombine parts val = some r) : r < 4294967296 := by
  match parts with
  | [] =>
    simp only [atonCombine] at h
    cases h
    omega
  | [a] =>
    have ha : a ≤ 255 := hp a (by simp)
    simp only [atonCombine] at h
    split at h
    · cases h
      rw [duo_or a val (by omega)]
      omega
    · cases h
  | [a, b] =>
    have ha : a ≤ 255 := hp a (by simp)
    have hb : b ≤ 255 := hp b (by simp)
    simp only [atonCombine] at h
    split at h
    · cases h
      rw [tri_or a b val hb (by omega)]
      omega
    · cases h
  | [a, b, c] =>
    have ha : a ≤ 255 := hp a (by simp)
    have hb : b ≤ 255 := hp b (by simp)
    have hc : c ≤ 255 := hp c (by simp)
    simp only [atonCombine] at h
    split at h
    · cases h
      rw [quad_or a b c val hb hc (by omega)]
      omega
    · cases h
  | _ :: _ :: _ :: _ :: _ =>
    simp only [atonCombine] at h
    cases h

/-- The loop of `inet_aton` only produces 32-bit values. -/
theorem atonLoop_lt : ∀ fuel (parts : List Nat) cs v, (∀ p ∈ parts, p ≤ 255) →
    atonLoop fuel parts cs = some v → v < 4294967296 := by
  intro fuel
  induction fuel with
  | zero => intro parts cs v _ h; exact absurd h (by simp [atonLoop])
  | succ fuel ih =>
    intro parts cs v hp h
    unfold atonLoop at h
    split at h
    · exact absurd h (by simp)
    · rename_i val_rest heq
      split at h
      · split at h
        · exact absurd h (by simp)
        · rename_i hguard
          apply ih _ _ _ _ h
          intro p hmem
          rcases List.mem_append.mp hmem with hl | hr
          · exact hp p hl
          · simp at hr
            subst hr
            simp at hguard
            omega
      · split at h
        · exact atonCombine_lt hp (parseNum_le heq) h
        · exact absurd h (by simp)

/-- `inet_aton` only produces 32-bit values. -/
theorem inet_aton_lt {s : String} {v : Nat} (h : inet_aton s = some v) : v < 4294967296 :=
  atonLoop_lt 4 [] s.data v (by simp) h

/-- `iptoint` only produces 32-bit values. -/
theorem iptoint_lt {s : String} {v : Nat} (h : iptoint s = Except.ok v) : v < 4294967296 := by
  unfold iptoint at h
  split at h
  · cases h
    rename_i heq
    exact inet_aton_lt heq
  · cases h

set_option maxRecDepth 4096 in
/-- The decimal rendering of every octet value is well formed. -/
theorem reprOctet_ok : ∀ n, n < 256 → reprOctetOk n = true := by decide

/-- `takeDec` consumes exactly a leading block of digits. -/
theorem takeDec_append (ds : List Char) (rest : List Char) (acc : Nat)
    (hds : ∀ c ∈ ds, isDec c = true)
    (hrest : ∀ c, rest.head? = some c → isDec c = false) :
    takeDec acc (ds ++ rest) = (ds.foldl (fun a c => a * 10 + (c.toNat - 48)) acc, rest) := by
  induction ds generalizing acc with
  | nil =>
    simp only [List.nil_append, List.foldl_nil]
    cases rest with
    | nil => simp [takeDec]
    | cons c cs =>
      have hc := hrest c rfl
      simp [takeDec, hc]
  | cons d ds ih =>
    have hd : isDec d = true := hds d (by simp)
    rw [List.cons_append]
    show takeDec acc (d :: (ds ++ rest)) = _
    rw [takeDec, if_pos hd, List.foldl_cons]
    exact ih _ fun c hc => hds c (by simp [hc])

/-- A dot never looks like a digit and never looks like hexadecimal lead-in. -/
theorem stopper_facts : isDec '.' = false ∧ isOct '.' = false ∧
    (decide ('.' = 'x') || decide ('.' = 'X')) = false := by decide

/-- `parseNum` on the decimal rendering of an octet followed by nothing or by
a dot: it consumes exactly the rendering and yields the octet back. -/
theorem parseNum_repr (n : Nat) (hn : n < 256) (rest : List Char)
    (hrest : rest = [] ∨ ∃ rs, rest = '.' :: rs) :
    parseNum (reprDigits n ++ rest) = some (n, rest) := by
  have hok := reprOctet_ok n hn
  unfold reprOctetOk at hok
  simp only [Bool.and_eq_true, Bool.or_eq_true, decide_eq_true_eq, List.all_eq_true,
    beq_iff_eq, Bool.not_eq_true', beq_eq_false_iff_ne, ne_eq] at hok
  obtain ⟨⟨⟨hne, hall⟩, hval⟩, hhead⟩ := hok
  have hstop : ∀ c, rest.head? = some c → isDec c = false := by
    intro c hc
    rcases hrest with hr | ⟨rs, hr⟩ <;> subst hr
    · simp at hc
    · simp at hc
      subst hc
      decide
  by_cases hn0 : n = 0
  · subst hn0
    have hzero : reprDigits 0 = ['0'] := by decide
    rw [hzero]
    rcases hrest with hr | ⟨rs, hr⟩ <;> subst hr
    · rfl
    · show parseNum ('0' :: '.' :: rs) = _
      simp [parseNum, takeOct, capNum, isOct]
  · obtain ⟨d, dtl, hds⟩ := List.exists_cons_of_ne_nil hne
    have hd0 : ¬(d = '0') := by
      rcases hhead with h0 | hh
      · exact absurd h0 hn0
      · intro hcontra
        apply hh
        rw [hds, hcontra]
        rfl
    have hdec : isDec d = true := hall d (by rw [hds]; simp)
    have hdtl : ∀ c ∈ dtl, isDec c = true := fun c hc => hall c (by rw [hds]; simp [hc])
    rw [hds, List.cons_append]
    show parseNum (d :: (dtl ++ rest)) = _
    simp only [parseNum]
    rw [if_neg hd0, if_pos hdec, takeDec_append dtl rest _ hdtl hstop]
    have hfold : dtl.foldl (fun a c => a * 10 + (c.toNat - 48)) (d.toNat - 48) = n := by
      have : digitsVal (d :: dtl) = n := by rw [← hds]; exact hval
      unfold digitsVal at this
      rw [List.foldl_cons] at this
      simpa using this
    rw [hfold]
    unfold capNum
    rw [if_pos (by omega : n ≤ 4294967295)]

/-- One dotted step of the `inet_aton` loop. -/
theorem atonLoop_dot (fuel : Nat) (parts : List Nat) (cs rest : List Char) (val : Nat)
    (h : parseNum cs = some (val, '.' :: rest)) (hlen : parts.length ≤ 2) (hval : val ≤ 255) :
    atonLoop (fuel + 1) parts cs = atonLoop fuel (parts ++ [val]) rest := by
  simp only [atonLoop, h]
  rw [if_neg (by simp only [Bool.or_eq_true, decide_eq_true_eq, not_or]; omega)]

/-- The final step of the `inet_aton` loop when the input is exhausted. -/
theorem atonLoop_fin (fuel : Nat) (parts : List Nat) (cs : List Char) (val : Nat)
    (h : parseNum cs = some (val, [])) :
    atonLoop (fuel + 1) parts cs = atonCombine parts val := by
  simp only [atonLoop, h, trailOk]
  rfl

/-- `inet_aton` accepts every canonically rendered four-octet dotted quad and
assembles the 32-bit value from its octets. -/
theorem aton_quad (a b c d : Nat) (ha : a < 256) (hb : b < 256) (hc : c < 256) (hd : d < 256) :
    inet_aton (mkQuad a b c d) = some (((a * 256 + b) * 256 + c) * 256 + d) := by
  show atonLoop 4 [] (mkQuad a b c d).data = _
  have e : (mkQuad a b c d).data =
      reprDigits a ++ ('.' :: (reprDigits b ++ ('.' :: (reprDigits c ++ ('.' :: reprDigits d))))) := by
    simp [mkQuad, List.append_assoc, List.cons_append]
  rw [e]
  refine Eq.trans (atonLoop_dot 3 [] _ _ a
    (parseNum_repr a ha _ (Or.inr ⟨_, rfl⟩)) (by simp) (by omega)) ?_
  refine Eq.trans (atonLoop_dot 2 ([] ++ [a]) _ _ b
    (parseNum_repr b hb _ (Or.inr ⟨_, rfl⟩)) (by simp) (by omega)) ?_
  refine Eq.trans (atonLoop_dot 1 ([] ++ [a] ++ [b]) _ _ c
    (parseNum_repr c hc _ (Or.inr ⟨_, rfl⟩)) (by simp) (by omega)) ?_
  refine Eq.trans (atonLoop_fin 0 ([] ++ [a] ++ [b] ++ [c]) _ d
    (by simpa using parseNum_repr d hd [] (Or.inl rfl))) ?_
  show atonCombine [a, b, c] d = _
  simp only [atonCombine]
  rw [if_pos (by omega : d ≤ 255), quad_or a b c d (by omega) (by omega) (by omega)]

/-- The codec roundtrip at the `inet_aton` level: rendering a 32-bit value and
parsing it back is the identity. -/
theorem aton_ipRender (v : Nat) (hv : v < 4294967296) : inet_aton (ipRender v) = some v := by
  have h := aton_quad ((v >>> 24) % 256) ((v >>> 16) % 256) ((v >>> 8) % 256) (v % 256)
    (Nat.mod_lt _ (by omega)) (Nat.mod_lt _ (by omega)) (Nat.mod_lt _ (by omega))
    (Nat.mod_lt _ (by omega))
  rw [ipRender, h]
  congr 1
  rw [Nat.shiftRight_eq_div_pow, Nat.shiftRight_eq_div_pow, Nat.shiftRight_eq_div_pow]
  have e24 : (2 : Nat) ^ 24 = 16777216 := by norm_num
  have e16 : (2 : Nat) ^ 16 = 65536 := by norm_num
  have e8 : (2 : Nat) ^ 8 = 256 := by norm_num
  rw [e24, e16, e8]
  omega

/-- The codec roundtrip at the `iptoint` level. -/
theorem iptoint_ipRender (v : Nat) (hv : v < 4294967296) : iptoint (ipRender v) = Except.ok v := by
  unfold iptoint
  rw [aton_ipRender v hv]

/-- `inttoip` succeeds on every 32-bit value and produces the rendering. -/
theorem inttoip_ok (v : Nat) (hv : v < 4294967296) : inttoip v = Except.ok (ipRender v) := by
  unfold inttoip
  rw [if_pos hv]

/-! Shape of every successful resolution result. -/

/-- Masking keeps values below 32 bits. -/
theorem and_lt_32 (x : Nat) {y : Nat} (hy : y < 4294967296) : x &&& y < 4294967296 := by
  have h32 : y < 2 ^ 32 := by omega
  have h2 := Nat.and_lt_two_pow x h32
  omega

/-- The textual enumerator's mask always fits in 32 bits. -/
theorem prefixMask_lt : ∀ p, p ≤ 32 → prefixMask p < 4294967296 := by decide

/-- Any success of the inner `netifaces` loop is built, through the codec,
from a matching (address, mask) pair of the current interface. -/
theorem netifacesInner_shape {pool : Nat} {name : String} {es : List InetInfo} {cfg : IfaceConfig}
    (h : netifacesInner pool name es = Except.ok (some cfg)) :
    ∃ a m, a < 4294967296 ∧ m < 4294967296 ∧ a &&& m = pool &&& m ∧
      cfg = ⟨some name, ipRender a, ipRender (a &&& m), ipRender m⟩ := by
  induction es with
  | nil => exact absurd h (by simp [netifacesInner])
  | cons e rest ih =>
    rw [netifacesInner] at h
    split at h
    · rename_i addr_s netmask_s _ _
      split at h
      · cases h
      · rename_i addr haddr
        split at h
        · cases h
        · rename_i mask hmask
          split at h
          · rename_i hxor
            have ha : addr < 4294967296 := iptoint_lt haddr
            have hm : mask < 4294967296 := iptoint_lt hmask
            rw [inttoip_ok addr ha, inttoip_ok (addr &&& mask) (and_lt_32 addr hm),
              inttoip_ok mask hm] at h
            simp only [bind, Except.bind, pure, Except.pure, Except.ok.injEq,
              Option.some.injEq] at h
            exact ⟨addr, mask, ha, hm, Nat.xor_eq_zero.mp hxor, h.symm⟩
          · exact ih h
    · exact ih h

/-- Any success of the outer `netifaces` loop has the same shape, for some
interface name. -/
theorem netifacesOuter_shape {pool : Nat} {env : List NetIface} {cfg : IfaceConfig}
    (h : netifacesOuter pool env = Except.ok (some cfg)) :
    ∃ name a m, a < 4294967296 ∧ m < 4294967296 ∧ a &&& m = pool &&& m ∧
      cfg = ⟨some name, ipRender a, ipRender (a &&& m), ipRender m⟩ := by
  induction env with
  | nil => exact absurd h (by simp [netifacesOuter])
  | cons i rest ih =>
    rw [netifacesOuter] at h
    split at h
    · exact ih h
    · rename_i entries _
      split at h
      · exact ih h
      · obtain ⟨a, m, ha, hm, hmask, hcfg⟩ := netifacesInner_shape h
        exact ⟨i.name, a, m, ha, hm, hmask, hcfg⟩

/-- Any success of the textual line loop is built, through the codec, from a
matching address and prefix mask. -/
theorem iprouteLoop_shape {pool : Nat} {lines : List String} {iface : Option String}
    {cfg : IfaceConfig}
    (h : iprouteLoop pool iface lines = Except.ok (some cfg)) :
    ∃ ifn a p, a < 4294967296 ∧ p ≤ 32 ∧ a &&& prefixMask p = pool &&& prefixMask p ∧
      cfg = ⟨ifn, ipRender a, ipRender (a &&& prefixMask p), ipRender (prefixMask p)⟩ := by
  induction lines generalizing iface with
  | nil => exact absurd h (by simp [iprouteLoop])
  | cons l rest ih =>
    rw [iprouteLoop] at h
    split at h
    · exact ih h
    · split at h
      · split at h
        · cases h
        · exact ih h
      · split at h
        · split at h
          · cases h
          · split at h
            · cases h
            · split at h
              · cases h
              · rename_i addr haddr
                split at h
                · cases h
                · rename_i mlen hmlen
                  split at h
                  · cases h
                  · split at h
                    · cases h
                    · rename_i hneg hlarge
                      split at h
                      · rename_i hxor
                        have hp : mlen.toNat ≤ 32 := by omega
                        have ha : addr < 4294967296 := iptoint_lt haddr
                        have hm : prefixMask mlen.toNat < 4294967296 := prefixMask_lt _ hp
                        rw [inttoip_ok addr ha, inttoip_ok _ (and_lt_32 addr hm),
                          inttoip_ok _ hm] at h
                        simp only [bind, Except.bind, pure, Except.pure, Except.ok.injEq,
                          Option.some.injEq] at h
                        exact ⟨iface, addr, mlen.toNat, ha, hp,
                          Nat.xor_eq_zero.mp hxor, h.symm⟩
                      · exact ih h
        · exact ih h

/-- `findSome?` distributes over append. -/
theorem findSome_append {α β : Type} (l1 l2 : List α) (f : α → Option β) :
    (l1 ++ l2).findSome? f =
      match l1.findSome? f with
      | some b => some b
      | none => l2.findSome? f := by
  induction l1 with
  | nil => simp
  | cons a l1 ih =>
    rw [List.cons_append, List.findSome?_cons, List.findSome?_cons]
    cases f a <;> simp [ih]

/-- The inner `netifaces` loop agrees with the reference first-match search
over this interface's candidate entries, provided every present candidate
field parses. -/
theorem netifacesInner_eq (pool : Nat) (name : String) (es : List InetInfo)
    (hwf : ∀ e ∈ es, ∀ a m, e.addr = some a → e.netmask = some m →
      (inet_aton a).isSome ∧ (inet_aton m).isSome) :
    netifacesInner pool name es =
      Except.ok ((es.filterMap fun e =>
        match e.addr, e.netmask with
        | some a, some m => some (name, a, m)
        | _, _ => none).findSome? (candMatch pool)) := by
  induction es with
  | nil => simp [netifacesInner]
  | cons e rest ih =>
    have ihrest := ih fun e1 h1 => hwf e1 (by simp [h1])
    match haddr : e.addr, hmask : e.netmask with
    | some a, some m =>
      obtain ⟨⟨va, hva⟩, vm, hvm⟩ :
          (∃ v, inet_aton a = some v) ∧ ∃ v, inet_aton m = some v := by
        have := hwf e (by simp) a m haddr hmask
        exact ⟨Option.isSome_iff_exists.mp this.1, Option.isSome_iff_exists.mp this.2⟩
      rw [netifacesInner, haddr, hmask]
      rw [List.filterMap_cons, haddr, hmask]
      simp only [List.findSome?_cons]
      have hipa : iptoint a = Except.ok va := by unfold iptoint; rw [hva]
      have hipm : iptoint m = Except.ok vm := by unfold iptoint; rw [hvm]
      rw [hipa, hipm]
      dsimp only
      have hcm : candMatch pool (name, a, m) =
          if va &&& vm = pool &&& vm then
            some ⟨some name, ipRender va, ipRender (va &&& vm), ipRender vm⟩
          else none := by
        unfold candMatch
        rw [hva, hvm]
      rw [hcm]
      by_cases hxz : va &&& vm = pool &&& vm
      · rw [if_pos (Nat.xor_eq_zero.mpr hxz), if_pos hxz]
        have hva32 : va < 4294967296 := inet_aton_lt hva
        have hvm32 : vm < 4294967296 := inet_aton_lt hvm
        rw [inttoip_ok va hva32, inttoip_ok (va &&& vm) (and_lt_32 va hvm32),
          inttoip_ok vm hvm32]
        rfl
      · rw [if_neg (fun hc => hxz (Nat.xor_eq_zero.mp hc)), if_neg hxz, ihrest]
    | some a, none =>
      rw [netifacesInner, haddr, hmask, List.filterMap_cons, haddr, hmask, ihrest]
    | none, some m =>
      rw [netifacesInner, haddr, hmask, List.filterMap_cons, haddr, hmask, ihrest]
    | none, none =>
      rw [netifacesInner, haddr, hmask, List.filterMap_cons, haddr, hmask, ihrest]

/-- The outer `netifaces` loop agrees with the reference first-match search
over all candidate entries, provided every present candidate field parses. -/
theorem netifacesOuter_eq (pool : Nat) (env : List NetIface)
    (hwf : ∀ c ∈ candidateEntries env, (inet_aton c.2.1).isSome ∧ (inet_aton c.2.2).isSome) :
    netifacesOuter pool env = Except.ok (specResolve pool env) := by
  induction env with
  | nil => simp [netifacesOuter, specResolve, candidateEntries]
  | cons i rest ih =>
    have hcand : candidateEntries (i :: rest) =
        (match i.inet with
          | none => []
          | some es =>
            es.filterMap fun e =>
              match e.addr, e.netmask with
              | some a, some m => some (i.name, a, m)
              | _, _ => none) ++ candidateEntries rest := by
      simp [candidateEntries, List.flatMap_cons]
    have ihrest : netifacesOuter pool rest = Except.ok (specResolve pool rest) := by
      apply ih
      intro c hc
      apply hwf c
      rw [hcand]
      exact List.mem_append_right _ hc
    match hinet : i.inet with
    | none =>
      rw [netifacesOuter, hinet]
      dsimp only
      rw [ihrest]
      unfold specResolve
      rw [hcand, hinet]
      rfl
    | some es =>
      have hwfi : ∀ e ∈ es, ∀ a m, e.addr = some a → e.netmask = some m →
          (inet_aton a).isSome ∧ (inet_aton m).isSome := by
        intro e he a m ha hm
        apply hwf (i.name, a, m)
        rw [hcand, hinet]
        apply List.mem_append_left
        exact List.mem_filterMap.mpr ⟨e, he, by rw [ha, hm]⟩
      rw [netifacesOuter, hinet]
      dsimp only
      rw [netifacesInner_eq pool i.name es hwfi]
      unfold specResolve
      rw [hcand, hinet, findSome_append]
      cases hfs : (es.filterMap fun e =>
          match e.addr, e.netmask with
          | some a, some m => some (i.name, a, m)
          | _, _ => none).findSome? (candMatch pool) with
      | none =>
        dsimp only
        rw [ihrest]
        rfl
      | some cfg => rfl

/-! The claims. -/

/-- C1: for every parseable target and every environment whose candidate
(address, netmask) entries parse, the structured enumerator returns exactly
the record built from the first matching candidate in enumeration order;
entries with a missing address or netmask field and interfaces without IPv4
configuration are skipped without aborting the enumeration. -/
theorem C1_structured_first_match (env : List NetIface) (t : String) (pool : Nat)
    (hpool : iptoint t = Except.ok pool)
    (hwf : ∀ c ∈ candidateEntries env, (inet_aton c.2.1).isSome ∧ (inet_aton c.2.2).isSome) :
    _netifaces_get_iface_config env t = Except.ok (specResolve pool env) := by
  unfold _netifaces_get_iface_config
  rw [hpool]
  exact netifacesOuter_eq pool env hwf

/-- Witness for C1: an environment exercising all three skip rules before the
match on the third interface. -/
theorem C1_structured_first_match_witness :
    _netifaces_get_iface_config
      [⟨"lo", some [⟨some "127.0.0.1", some "255.0.0.0"⟩]⟩, ⟨"down0", none⟩,
        ⟨"eth0", some [⟨none, some "255.255.255.0"⟩, ⟨some "192.168.1.10", some "255.255.255.0"⟩]⟩]
      ("192.168.1.200") =
    Except.ok (specResolve 3232235976
      [⟨"lo", some [⟨some "127.0.0.1", some "255.0.0.0"⟩]⟩, ⟨"down0", none⟩,
        ⟨"eth0", some [⟨none, some "255.255.255.0"⟩, ⟨some "192.168.1.10", some "255.255.255.0"⟩]⟩]) :=
  C1_structured_first_match _ ("192.168.1.200") 3232235976 rfl (by decide)

/-! The claims, continued. -/

/-- C2: whenever either enumerator returns a record for target `t`, reading
the record's `server`, `net` and `mask` fields back through the IP codec gives
values with `net == server & mask` and `net == t & mask`. -/
theorem C2_membership_invariant :
    (∀ (env : List NetIface) (t : String) (cfg : IfaceConfig),
      _netifaces_get_iface_config env t = Except.ok (some cfg) →
      ∃ pool s n m, iptoint t = Except.ok pool ∧ iptoint cfg.server = Except.ok s ∧
        iptoint cfg.net = Except.ok n ∧ iptoint cfg.mask = Except.ok m ∧
        n = s &&& m ∧ n = pool &&& m) ∧
    (∀ (out t : String) (cfg : IfaceConfig),
      _iproute_get_iface_config out t = Except.ok (some cfg) →
      ∃ pool s n m, iptoint t = Except.ok pool ∧ iptoint cfg.server = Except.ok s ∧
        iptoint cfg.net = Except.ok n ∧ iptoint cfg.mask = Except.ok m ∧
        n = s &&& m ∧ n = pool &&& m) := by
  constructor
  · intro env t cfg h
    unfold _netifaces_get_iface_config at h
    split at h
    · cases h
    · rename_i pool hpool
      obtain ⟨name, a, m, ha, hm, hmask, hcfg⟩ := netifacesOuter_shape h
      subst hcfg
      exact ⟨pool, a, a &&& m, m, hpool, iptoint_ipRender a ha,
        iptoint_ipRender _ (and_lt_32 a hm), iptoint_ipRender m hm, rfl, hmask⟩
  · intro out t cfg h
    unfold _iproute_get_iface_config at h
    split at h
    · cases h
    · rename_i pool hpool
      obtain ⟨ifn, a, p, ha, hp, hmask, hcfg⟩ := iprouteLoop_shape h
      subst hcfg
      have hm := prefixMask_lt p hp
      exact ⟨pool, a, a &&& prefixMask p, prefixMask p, hpool, iptoint_ipRender a ha,
        iptoint_ipRender _ (and_lt_32 a hm), iptoint_ipRender _ hm, rfl, hmask⟩

/-- Witness for C2 at a concrete environment. -/
theorem C2_membership_invariant_witness :
    ∃ pool s n m, iptoint ("192.168.1.200") = Except.ok pool ∧
      iptoint ("192.168.1.10") = Except.ok s ∧ iptoint ("192.168.1.0") = Except.ok n ∧
      iptoint ("255.255.255.0") = Except.ok m ∧ n = s &&& m ∧ n = pool &&& m :=
  C2_membership_invariant.1 [⟨"eth0", some [⟨some "192.168.1.10", some "255.255.255.0"⟩]⟩]
    ("192.168.1.200") ⟨some "eth0", "192.168.1.10", "192.168.1.0", "255.255.255.0"⟩ rfl

/-- C4, counterexample: `iptoint` does not fail on a string with fewer than
four dot-separated components; `inet_aton` accepts `"1.2.3"` as 1.2.3 with a
16-bit last part. -/
theorem C4_counterexample : iptoint ("1.2.3") = Except.ok 16908291 := rfl

/-- C4, amended: `iptoint` succeeds on every canonically rendered four-octet
dotted quad, but it does not fail on every other string. -/
theorem C4_amended :
    (∀ a b c d : Nat, a < 256 → b < 256 → c < 256 → d < 256 →
      iptoint (mkQuad a b c d) = Except.ok (((a * 256 + b) * 256 + c) * 256 + d)) ∧
    iptoint ("1.2.3") = Except.ok 16908291 := by
  constructor
  · intro a b c d ha hb hc hd
    unfold iptoint
    rw [aton_quad a b c d ha hb hc hd]
  · rfl

/-- Witness for C4 at a concrete quad. -/
theorem C4_amended_witness : iptoint (mkQuad 192 168 1 10) = Except.ok 3232235786 :=
  C4_amended.1 192 168 1 10 (by norm_num) (by norm_num) (by norm_num) (by norm_num)

/-- C5: for every 32-bit value, converting to a dotted quad with `inttoip` and
back with `iptoint` is the identity. -/
theorem C5_roundtrip (x : Nat) (hx : x < 4294967296) :
    (inttoip x).bind iptoint = Except.ok x := by
  rw [inttoip_ok x hx]
  show iptoint (ipRender x) = Except.ok x
  exact iptoint_ipRender x hx

/-- Witness for C5 at a concrete value. -/
theorem C5_roundtrip_witness : (inttoip 3232235786).bind iptoint = Except.ok 3232235786 :=
  C5_roundtrip 3232235786 (by norm_num)

/-- C6: with a nonempty address, `get_iface_config` dispatches to exactly the
strategy selected by the availability of `netifaces`, and unavailability is
only ever a dispatch decision, never an error. -/
theorem C6_strategy_selection (env : List NetIface) (out : String) (a : String)
    (ha : ¬(a = "")) :
    get_iface_config true env out (some a) = _netifaces_get_iface_config env a ∧
    get_iface_config false env out (some a) = _iproute_get_iface_config out a := by
  constructor <;> simp [get_iface_config, resolveWith, ha]

/-- Witness for C6 at a concrete address. -/
theorem C6_strategy_selection_witness :
    get_iface_config true [] ("") (some "10.0.0.1") = _netifaces_get_iface_config [] ("10.0.0.1") ∧
    get_iface_config false [] ("") (some "10.0.0.1") = _iproute_get_iface_config ("") ("10.0.0.1") :=
  C6_strategy_selection [] ("") ("10.0.0.1") (by simp)

/-- C7: for every prefix length up to 32, the mask computed by the textual
enumerator has exactly the top `p` bits of 32 set; in particular 24, 0 and 32
give the expected masks. -/
theorem C7_prefix_mask :
    (∀ p, p ≤ 32 → prefixMask p < 4294967296 ∧
      ∀ i, i < 32 → (Nat.testBit (prefixMask p) i ↔ 32 - p ≤ i)) ∧
    prefixMask 24 = 4294967040 ∧ prefixMask 0 = 0 ∧ prefixMask 32 = 4294967295 := by
  refine ⟨by decide, rfl, rfl, rfl⟩

/-- Witness for C7 at prefix length 24. -/
theorem C7_prefix_mask_witness :
    prefixMask 24 < 4294967296 ∧ (Nat.testBit (prefixMask 24) 8 ↔ 32 - 24 ≤ 8) :=
  ⟨(C7_prefix_mask.1 24 (by norm_num)).1, (C7_prefix_mask.1 24 (by norm_num)).2 8 (by norm_num)⟩

/-- C8: an absent or empty target address makes the resolver return `None`
immediately, whatever the strategies would do — they are never invoked. -/
theorem C8_empty_short_circuit :
    (∀ structured textual avail,
      resolveWith structured textual avail none = Except.ok none ∧
      resolveWith structured textual avail (some "") = Except.ok none) ∧
    (∀ avail env out, get_iface_config avail env out none = Except.ok none ∧
      get_iface_config avail env out (some "") = Except.ok none) :=
  ⟨fun _ _ _ => ⟨rfl, rfl⟩, fun _ _ _ => ⟨rfl, rfl⟩⟩

/-- C10: a line whose single whitespace-delimited token ends in a colon makes
the textual enumerator fail with an index error, because the second token is
accessed unconditionally; `"lo:"` is a concrete such input. -/
theorem C10_header_index_error :
    (∀ (pool : Nat) (iface : Option String) (l tok : String) (rest : List String),
      pySplit l = [tok] → lastIs ':' tok = true →
      iprouteLoop pool iface (l :: rest) = Except.error PyErr.indexError) ∧
    _iproute_get_iface_config ("lo:") ("1.2.3.4") = Except.error PyErr.indexError := by
  constructor
  · intro pool iface l tok rest hsplit hcolon
    rw [iprouteLoop, hsplit]
    simp [hcolon]
  · rfl

/-- Witness for C10 at the concrete line. -/
theorem C10_header_index_error_witness :
    iprouteLoop 0 none ["lo:"] = Except.error PyErr.indexError :=
  C10_header_index_error.1 0 none ("lo:") ("lo:") [] rfl rfl

/-- When the scan of a prefix of lines reaches its end in state `iface'`, the
real loop on that prefix followed by anything continues from `iface'`. -/
theorem iprouteScan_append {pool : Nat} : ∀ (pre : List String) (iface iface' : Option String),
    iprouteScan pool iface pre = some iface' →
    ∀ rest, iprouteLoop pool iface (pre ++ rest) = iprouteLoop pool iface' rest := by
  intro pre
  induction pre with
  | nil =>
    intro iface iface' h rest
    cases h
    rfl
  | cons l pre ih =>
    intro iface iface' h rest
    rw [iprouteScan] at h
    rw [List.cons_append, iprouteLoop]
    revert h
    cases hsplit : pySplit l with
    | nil =>
      intro h
      exact ih _ _ h rest
    | cons first others =>
      dsimp only
      by_cases hcolon : lastIs ':' first = true
      · simp only [if_pos hcolon]
        cases others with
        | nil =>
          intro h
          cases h
        | cons second more =>
          dsimp only
          intro h
          exact ih _ _ h rest
      · simp only [if_neg hcolon]
        by_cases hinet : first = "inet"
        · simp only [if_pos hinet]
          cases others with
          | nil =>
            intro h
            cases h
          | cons second more =>
            dsimp only
            cases hss : pySplitSlash second with
            | none =>
              intro h
              cases h
            | some p =>
              obtain ⟨saddr, smasklen⟩ := p
              dsimp only
              cases hip : iptoint saddr with
              | error err =>
                intro h
                cases h
              | ok addr =>
                dsimp only
                cases hpi : pyParseInt smasklen with
                | none =>
                  intro h
                  cases h
                | some mlen =>
                  dsimp only
                  by_cases hneg : mlen < 0
                  · simp only [if_pos hneg]
                    intro h
                    cases h
                  · simp only [if_neg hneg]
                    by_cases hbig : 32 < mlen
                    · simp only [if_pos hbig]
                      intro h
                      cases h
                    · simp only [if_neg hbig]
                      by_cases hxor :
                        (addr &&& prefixMask mlen.toNat) ^^^ (pool &&& prefixMask mlen.toNat) = 0
                      · simp only [if_pos hxor]
                        intro h
                        cases h
                      · simp only [if_neg hxor]
                        intro h
                        exact ih _ _ h rest
        · simp only [if_neg hinet]
          intro h
          exact ih _ _ h rest

/-- C3, counterexample: a malformed `inet` line does not fail the call when a
valid stanza matching the target appears earlier in the output — the earlier
match is returned and the malformed line is never parsed.  The third line's
second token `"bogus"` has no slash, hence is malformed. -/
theorem C3_counterexample :
    _iproute_get_iface_config
      ("2: eth0: mtu 1500\n    inet 192.168.1.10/24 brd 192.168.1.255\n    inet bogus\n")
      ("192.168.1.50") =
      Except.ok (some ⟨some "eth0", "192.168.1.10", "192.168.1.0", "255.255.255.0"⟩) ∧
    pySplitSlash ("bogus") = none := ⟨rfl, rfl⟩

/-- C3, amended: a malformed `inet` second token fails the whole call with the
corresponding parse error whenever it is reached, i.e. whenever no earlier
line has already returned a match or raised — in particular a valid matching
stanza strictly later in the output does not prevent the failure. -/
theorem C3_amended (out t : String) (pool : Nat) (pre post : List String) (l tok : String)
    (toks : List String) (iface' : Option String) (e : PyErr)
    (hpool : iptoint t = Except.ok pool)
    (hlines : splitLines out = pre ++ l :: post)
    (hscan : iprouteScan pool none pre = some iface')
    (htok : pySplit l = "inet" :: tok :: toks)
    (herr : inetTokenError tok = some e) :
    _iproute_get_iface_config out t = Except.error e := by
  unfold _iproute_get_iface_config
  rw [hpool]
  dsimp only
  rw [hlines, iprouteScan_append pre none iface' hscan (l :: post), iprouteLoop, htok]
  dsimp only
  rw [if_neg (by decide : ¬(lastIs ':' ("inet") = true)), if_pos rfl]
  unfold inetTokenError at herr
  revert herr
  cases hss : pySplitSlash tok with
  | none =>
    dsimp only
    intro herr
    cases herr
    rfl
  | some p =>
    obtain ⟨saddr, smasklen⟩ := p
    dsimp only
    cases hip : iptoint saddr with
    | error err =>
      dsimp only
      intro herr
      cases herr
      rfl
    | ok addr =>
      dsimp only
      cases hpi : pyParseInt smasklen with
      | none =>
        dsimp only
        intro herr
        cases herr
        rfl
      | some mlen =>
        dsimp only
        by_cases hneg : mlen < 0
        · simp only [if_pos hneg]
          intro herr
          cases herr
          rfl
        · simp only [if_neg hneg]
          by_cases hbig : 32 < mlen
          · simp only [if_pos hbig]
            intro herr
            cases herr
            rfl
          · simp only [if_neg hbig]
            intro herr
            cases herr

/-- Witness for C3 at a concrete output in which the malformed line precedes a
valid matching stanza. -/
theorem C3_amended_witness :
    _iproute_get_iface_config ("2: eth0: mtu\ninet bogus\ninet 192.168.1.10/24\n")
      ("192.168.1.50") = Except.error PyErr.valueError :=
  C3_amended ("2: eth0: mtu\ninet bogus\ninet 192.168.1.10/24\n") ("192.168.1.50")
    3232235826 ["2: eth0: mtu"] ["inet 192.168.1.10/24"] ("inet bogus") ("bogus") []
    (some "eth0") PyErr.valueError rfl rfl rfl rfl rfl

/-- C9, counterexample: the textual enumerator can return a record whose
`ifname` field is null rather than an interface-name string — an `inet` line
matching before any interface header line leaves the current interface unset. -/
theorem C9_counterexample :
    _iproute_get_iface_config ("inet 0.0.0.0/0") ("1.2.3.4") =
      Except.ok (some ⟨none, "0.0.0.0", "0.0.0.0", "0.0.0.0"⟩) ∧
    (⟨none, "0.0.0.0", "0.0.0.0", "0.0.0.0"⟩ : IfaceConfig).ifname = none := ⟨rfl, rfl⟩

/-- C9, amended: every non-null result is a record of the four fields in which
`server`, `net` and `mask` are canonical dotted-quad renderings of 32-bit
values; `ifname` holds an interface-name string in the structured path, while
in the textual path it holds the current interface name, which may be null. -/
theorem C9_amended :
    (∀ (env : List NetIface) (t : String) (cfg : IfaceConfig),
      _netifaces_get_iface_config env t = Except.ok (some cfg) →
      (∃ nm, cfg.ifname = some nm) ∧
      (∃ a, a < 4294967296 ∧ cfg.server = ipRender a) ∧
      (∃ n, n < 4294967296 ∧ cfg.net = ipRender n) ∧
      (∃ m, m < 4294967296 ∧ cfg.mask = ipRender m)) ∧
    (∀ (out t : String) (cfg : IfaceConfig),
      _iproute_get_iface_config out t = Except.ok (some cfg) →
      (∃ a, a < 4294967296 ∧ cfg.server = ipRender a) ∧
      (∃ n, n < 4294967296 ∧ cfg.net = ipRender n) ∧
      (∃ m, m < 4294967296 ∧ cfg.mask = ipRender m)) := by
  constructor
  · intro env t cfg h
    unfold _netifaces_get_iface_config at h
    split at h
    · cases h
    · obtain ⟨name, a, m, ha, hm, hmask, hcfg⟩ := netifacesOuter_shape h
      subst hcfg
      exact ⟨⟨name, rfl⟩, ⟨a, ha, rfl⟩, ⟨a &&& m, and_lt_32 a hm, rfl⟩, ⟨m, hm, rfl⟩⟩
  · intro out t cfg h
    unfold _iproute_get_iface_config at h
    split at h
    · cases h
    · obtain ⟨ifn, a, p, ha, hp, hmask, hcfg⟩ := iprouteLoop_shape h
      subst hcfg
      exact ⟨⟨a, ha, rfl⟩, ⟨a &&& prefixMask p, and_lt_32 a (prefixMask_lt p hp), rfl⟩,
        ⟨prefixMask p, prefixMask_lt p hp, rfl⟩⟩

/-- Witness for C9 at a concrete environment. -/
theorem C9_amended_witness :
    (∃ nm, (⟨some "eth0", "192.168.1.10", "192.168.1.0", "255.255.255.0"⟩ :
      IfaceConfig).ifname = some nm) ∧
    (∃ a, a < 4294967296 ∧ (⟨some "eth0", "192.168.1.10", "192.168.1.0", "255.255.255.0"⟩ :
      IfaceConfig).server = ipRender a) ∧
    (∃ n, n < 4294967296 ∧ (⟨some "eth0", "192.168.1.10", "192.168.1.0", "255.255.255.0"⟩ :
      IfaceConfig).net = ipRender n) ∧
    (∃ m, m < 4294967296 ∧ (⟨some "eth0", "192.168.1.10", "192.168.1.0", "255.255.255.0"⟩ :
      IfaceConfig).mask = ipRender m) :=
  C9_amended.1 [⟨"eth0", some [⟨some "192.168.1.10", some "255.255.255.0"⟩]⟩]
    ("192.168.1.200") ⟨some "eth0", "192.168.1.10", "192.168.1.0", "255.255.255.0"⟩ rfl

end Pybootd
